import Mathlib

/-!
# ChargeDrift — verification of the analytical core

A shallow embedding, in Lean 4, of the analytical pipeline of the
`chargedrift` repository: merchant-name resolution
(`src/lib/services/merchant-normalizer.ts`), recurring-charge detection
(`src/lib/services/recurring-detector.ts`), price-drift computation
(`price-drift.ts`) and CSV ingestion (`csv-parser.ts`).

Modelling conventions:
* JavaScript numbers holding monetary amounts, counts and scores are
  modelled as rationals (`ℚ`); all the concrete constants of the code
  (15.99, 0.15, 1.2, …) are exactly representable, so the rational model
  agrees with the double-precision evaluation on the magnitudes involved.
  `calculateDriftMetrics` uses a real-valued power and is modelled on `ℝ`.
* Calendar dates flowing through the recurring detector are modelled as
  day numbers (`ℤ`): valid ISO `YYYY-MM-DD` strings are in order-preserving
  bijection with day numbers, `parseISO` is that bijection, and date-fns
  `differenceInDays` is subtraction of day numbers.
* JavaScript's stable `Array.prototype.sort` with a numeric key comparator
  is modelled by `List.insertionSort` on `key a ≤ key b`, which is stable
  and produces the sorted order, hence the same list.
-/

namespace ChargeDrift

/-- JS `array.sort((a, b) => key(a) - key(b))`: a stable sort by a numeric
key, modelled as insertion sort on the relation `key a ≤ key b`. -/
def sortByKey {α : Type} {κ : Type} [LinearOrder κ] (key : α → κ) (l : List α) : List α :=
  l.insertionSort (fun a b => key a ≤ key b)

/-! ## Data model (`src/types/index.ts`)

Only the columns the analytical pipeline reads are modelled; storage-only
columns (`user_id`, `account_id`, `plaid_transaction_id`, timestamps, …)
are omitted. -/

/-- `Transaction` (fields used by the detectors). `date` is a day number,
see the conventions above. -/
structure Transaction where
  id : String
  merchant_id : Option String
  amount : ℚ
  date : ℤ
  pending : Bool
deriving DecidableEq, Inhabited

/-- `RecurringFrequency` of `src/types/index.ts`. -/
inductive RecurringFrequency where
  | weekly | biweekly | monthly | quarterly | yearly
deriving DecidableEq, Inhabited

/-! ## Recurring-charge detector (`src/lib/services/recurring-detector.ts`) -/

/-- `FrequencyPattern` of `recurring-detector.ts`. -/
structure FrequencyPattern where
  frequency : RecurringFrequency
  minDays : ℤ
  maxDays : ℤ
  weight : ℚ
deriving DecidableEq

/-- `FREQUENCY_PATTERNS` of `recurring-detector.ts`. -/
def FREQUENCY_PATTERNS : List FrequencyPattern :=
  [ ⟨.weekly, 5, 9, 1⟩,
    ⟨.biweekly, 12, 16, 1⟩,
    ⟨.monthly, 27, 35, 1.2⟩,
    ⟨.quarterly, 85, 100, 0.8⟩,
    ⟨.yearly, 355, 375, 0.6⟩ ]

def MIN_TRANSACTIONS : ℕ := 2

def MIN_CONFIDENCE : ℚ := 0.5

def AMOUNT_TOLERANCE : ℚ := 0.15

/-- The consecutive-day intervals of `detectFrequency`: the dates are sorted
chronologically and `differenceInDays` of each adjacent pair is taken. -/
def dateIntervals (dates : List ℤ) : List ℤ :=
  let sortedDates := sortByKey id dates
  (sortedDates.zip sortedDates.tail).map (fun p => p.2 - p.1)

/-- `avgInterval` of `detectFrequency`: the arithmetic mean of the intervals. -/
def avgInterval (dates : List ℤ) : ℚ :=
  ((dateIntervals dates).map (fun i : ℤ => (i : ℚ))).sum / ((dateIntervals dates).length : ℚ)

/-- The score `detectFrequency` gives a pattern: the fraction of intervals
inside the pattern's day range, times the pattern's weight. -/
def patternScore (dates : List ℤ) (p : FrequencyPattern) : ℚ :=
  (((dateIntervals dates).filter (fun i => decide (p.minDays ≤ i ∧ i ≤ p.maxDays))).length : ℚ)
    / ((dateIntervals dates).length : ℚ) * p.weight

/-- The `bestMatch`/`bestScore` loop of `detectFrequency`: fold over
`FREQUENCY_PATTERNS`, keeping the highest-scoring pattern whose day range
contains the mean interval (strict `>` keeps the earlier of equal scores). -/
def bestPattern (dates : List ℤ) : Option FrequencyPattern × ℚ :=
  FREQUENCY_PATTERNS.foldl
    (fun acc p =>
      if (p.minDays : ℚ) ≤ avgInterval dates ∧ avgInterval dates ≤ (p.maxDays : ℚ) then
        if acc.2 < patternScore dates p then (some p, patternScore dates p) else acc
      else acc)
    (none, 0)

/-- `detectFrequency` of `recurring-detector.ts`: `none` models `null`; a
result carries the frequency and the confidence. -/
def detectFrequency (dates : List ℤ) : Option (RecurringFrequency × ℚ) :=
  if dates.length < MIN_TRANSACTIONS then none
  else if (dateIntervals dates).length = 0 then none
  else
    match bestPattern dates with
    | (none, _) => none
    | (some p, s) => if s < MIN_CONFIDENCE then none else some (p.frequency, min s 1)

/-- `avgAmount` of `checkAmountConsistency`. -/
def avgAmount (amounts : List ℚ) : ℚ := amounts.sum / (amounts.length : ℚ)

/-- The amounts `checkAmountConsistency` counts as consistent:
`Math.abs(amount - avgAmount) / avgAmount <= AMOUNT_TOLERANCE`. When the
average is 0 the JS quotient is `NaN` (or `±Infinity`), which compares
`false` against the tolerance; the `avgAmount ≠ 0` guard models that. -/
def consistentAmounts (amounts : List ℚ) : List ℚ :=
  amounts.filter (fun a =>
    decide (avgAmount amounts ≠ 0 ∧ |a - avgAmount amounts| / avgAmount amounts ≤ AMOUNT_TOLERANCE))

/-- `checkAmountConsistency` of `recurring-detector.ts`:
`(consistent, confidenceBoost)`. -/
def checkAmountConsistency (amounts : List ℚ) : Bool × ℚ :=
  if amounts.length < 2 then (false, 0)
  else
    let ratio : ℚ := ((consistentAmounts amounts).length : ℚ) / (amounts.length : ℚ)
    (decide (0.7 ≤ ratio), ratio * 0.2)

/-- `TransactionGroup` of `recurring-detector.ts`. -/
structure TransactionGroup where
  merchantId : String
  transactions : List Transaction
  amounts : List ℚ
  dates : List ℤ
deriving DecidableEq, Inhabited

/-- The three pushes of `groupByMerchant` onto an existing group. -/
def extendGroup (g : TransactionGroup) (tx : Transaction) : TransactionGroup :=
  { g with
    transactions := g.transactions ++ [tx],
    amounts := g.amounts ++ [tx.amount],
    dates := g.dates ++ [tx.date] }

/-- Appending one transaction to a merchant's group inside the (insertion
ordered) group list, or creating the group at the end, as `groups.set` /
pushing onto an existing entry does on a JS `Map`. -/
def addToGroups (m : String) (tx : Transaction) :
    List (String × TransactionGroup) → List (String × TransactionGroup)
  | [] => [(m, ⟨m, [tx], [tx.amount], [tx.date]⟩)]
  | (k, g) :: rest =>
    if k = m then (k, extendGroup g tx) :: rest
    else (k, g) :: addToGroups m tx rest

/-- `groups.get(merchantId)` on the association-list model of the JS `Map`. -/
def findGroup (m : String) : List (String × TransactionGroup) → Option TransactionGroup
  | [] => none
  | (k, g) :: rest => if k = m then some g else findGroup m rest

/-- The non-pending transactions of one merchant, in input order — the
contents `groupByMerchant` accumulates for that merchant. -/
def merchantGroupTxs (m : String) (transactions : List Transaction) : List Transaction :=
  transactions.filter (fun t => t.merchant_id == some m && !t.pending)

/-- Proof scaffolding: the group of merchant `m` after feeding a list of
`m`-transactions into an optional already-present group. -/
def buildGroup (m : String) : Option TransactionGroup → List Transaction → Option TransactionGroup
  | og, [] => og
  | og, tx :: rest =>
    buildGroup m
      (some (match og with
             | none => ⟨m, [tx], [tx.amount], [tx.date]⟩
             | some g => extendGroup g tx))
      rest

/-- `groupByMerchant` of `recurring-detector.ts`. A JS `Map` iterates in
insertion order, so it is modelled as an association list with unique keys,
new keys appended at the end. `none` models a JS-falsy `tx.merchant_id`
(`null`, or the empty string — both fail the `!tx.merchant_id` guard). -/
def groupByMerchant (transactions : List Transaction) : List (String × TransactionGroup) :=
  transactions.foldl
    (fun gs tx =>
      match tx.merchant_id with
      | none => gs
      | some m => if tx.pending then gs else addToGroups m tx gs)
    []

/-- `DetectedRecurring` of `recurring-detector.ts`. -/
structure DetectedRecurring where
  merchantId : String
  frequency : RecurringFrequency
  confidence : ℚ
  firstAmount : ℚ
  currentAmount : ℚ
  firstDate : ℤ
  lastDate : ℤ
  transactionCount : ℕ
deriving DecidableEq, Inhabited

/-- The body of the loop of `detectRecurringCharges` for one merchant group:
`none` models `continue`, `some` the pushed record. `headI`/`getLastI` model
the `[0]` / `[length - 1]` indexings, which the guards keep in bounds. -/
def processGroup (merchantId : String) (group : TransactionGroup) : Option DetectedRecurring :=
  if group.transactions.length < MIN_TRANSACTIONS then none
  else
    match detectFrequency group.dates with
    | none => none
    | some fr =>
      let amountCheck := checkAmountConsistency group.amounts
      if amountCheck.1 = false then none
      else
        let sortedDates := sortByKey id group.dates
        let sortedTx := sortByKey (fun t => t.date) group.transactions
        some
          { merchantId := merchantId
            frequency := fr.1
            confidence := min (fr.2 + amountCheck.2) 1
            firstAmount := sortedTx.headI.amount
            currentAmount := sortedTx.getLastI.amount
            firstDate := sortedDates.headI
            lastDate := sortedDates.getLastI
            transactionCount := group.transactions.length }

/-- `detectRecurringCharges` of `recurring-detector.ts`. -/
def detectRecurringCharges (transactions : List Transaction) : List DetectedRecurring :=
  (groupByMerchant transactions).filterMap (fun p => processGroup p.1 p.2)

/-! ## Price-drift computation (`price-drift.ts`) -/

/-- `RecurringCharge` (the columns `detectPriceChanges` reads). -/
structure RecurringCharge where
  id : String
  merchant_id : String
deriving DecidableEq, Inhabited

/-- `PriceChangeDetection` of `price-drift.ts`. `detectedAt` is
`parseISO(curr.date)`, a day number under the date conventions above. -/
structure PriceChangeDetection where
  recurringChargeId : String
  merchantId : String
  previousAmount : ℚ
  newAmount : ℚ
  changeAmount : ℚ
  changePercent : ℚ
  detectedAt : ℤ
  transactionId : Option String
deriving DecidableEq

/-- `percentChange` of one adjacent pair in `detectPriceChanges`:
`prev.amount > 0 ? change / prev.amount * 100 : 0`. -/
def pairChangePercent (prevAmount currAmount : ℚ) : ℚ :=
  if 0 < prevAmount then (currAmount - prevAmount) / prevAmount * 100 else 0

/-- The event record `detectPriceChanges` pushes for one adjacent pair. -/
def priceEvent (recurringCharge : RecurringCharge) (prev curr : Transaction) :
    PriceChangeDetection :=
  { recurringChargeId := recurringCharge.id
    merchantId := recurringCharge.merchant_id
    previousAmount := prev.amount
    newAmount := curr.amount
    changeAmount := curr.amount - prev.amount
    changePercent := pairChangePercent prev.amount curr.amount
    detectedAt := curr.date
    transactionId := some curr.id }

/-- The `for (let i = 1; …)` loop of `detectPriceChanges` over the sorted
transactions: each adjacent pair yields an event when
`Math.abs(percentChange) > 1`. -/
def priceEvents (recurringCharge : RecurringCharge) : List Transaction → List PriceChangeDetection
  | prev :: curr :: rest =>
    (if 1 < |pairChangePercent prev.amount curr.amount| then [priceEvent recurringCharge prev curr]
     else []) ++ priceEvents recurringCharge (curr :: rest)
  | _ => []

/-- `detectPriceChanges` of `price-drift.ts`. -/
def detectPriceChanges (transactions : List Transaction) (recurringCharge : RecurringCharge) :
    List PriceChangeDetection :=
  let sortedTx := sortByKey (fun t => t.date)
    (transactions.filter
      (fun t => t.merchant_id == some recurringCharge.merchant_id && !t.pending))
  if sortedTx.length < 2 then [] else priceEvents recurringCharge sortedTx

/-- A calendar date, for the date-fns month arithmetic of
`calculateDriftMetrics`. -/
structure CalDate where
  year : ℤ
  month : ℤ
  day : ℤ
deriving DecidableEq

/-- Modelled from the spec: date-fns `differenceInMonths` (library code, not
part of the repository), "months_tracked = whole months between first_date
and last_date". At day granularity: the calendar-month difference, reduced
towards zero by one when the last month is not complete. None of the
properties proved below depends on the value this returns, only on the
`monthsTracked` field carrying it. -/
def differenceInMonths (laterDate earlierDate : CalDate) : ℤ :=
  let cal := (laterDate.year - earlierDate.year) * 12 + (laterDate.month - earlierDate.month)
  if 0 ≤ cal then (if laterDate.day < earlierDate.day then cal - 1 else cal)
  else (if earlierDate.day < laterDate.day then cal + 1 else cal)

/-- The record `calculateDriftMetrics` returns. -/
structure DriftMetrics where
  totalChange : ℝ
  percentChange : ℝ
  annualizedIncrease : ℝ
  monthsTracked : ℤ

/-- `calculateDriftMetrics` of `price-drift.ts`. Amounts are modelled on `ℝ`
because the annualized increase raises to the real power `12 / monthsTracked`
(`Math.pow`, modelled by `Real.rpow`). -/
noncomputable def calculateDriftMetrics (firstAmount currentAmount : ℝ)
    (firstDate lastDate : CalDate) : DriftMetrics :=
  let totalChange := currentAmount - firstAmount
  let percentChange :=
    if 0 < firstAmount then (currentAmount - firstAmount) / firstAmount * 100 else 0
  let monthsTracked := differenceInMonths lastDate firstDate
  let annualizedIncrease :=
    if 0 < firstAmount ∧ 0 < monthsTracked then
      ((currentAmount / firstAmount) ^ ((12 : ℝ) / (monthsTracked : ℝ)) - 1) * 100
    else 0
  ⟨totalChange, percentChange, annualizedIncrease, monthsTracked⟩

/-! ## Merchant resolution (`src/lib/services/merchant-normalizer.ts`) -/

/-- The inline normalization of `calculateSimilarity`:
`s.toLowerCase().replace(/[^a-z0-9]/g, '')` (lowercase, then keep only
`a`–`z` and `0`–`9`). -/
def alphanumericLower (s : String) : List Char :=
  (s.data.map Char.toLower).filter
    (fun c => decide (('a' ≤ c ∧ c ≤ 'z') ∨ ('0' ≤ c ∧ c ≤ '9')))

/-- `levenshteinDistance` of `merchant-normalizer.ts`. The source tabulates
the standard dynamic-programming matrix
`matrix[i][j] = d(b[0..i), a[0..j))` bottom-up; it is embedded as the
recurrence that matrix computes. -/
def levenshteinDistance : List Char → List Char → ℕ
  | [], ys => ys.length
  | xs, [] => xs.length
  | x :: xs, y :: ys =>
    if x = y then levenshteinDistance xs ys
    else 1 + min (levenshteinDistance xs ys)
            (min (levenshteinDistance (x :: xs) ys) (levenshteinDistance xs (y :: ys)))
termination_by a b => a.length + b.length

/-- `calculateSimilarity` of `merchant-normalizer.ts`. -/
def calculateSimilarity (a b : String) : ℚ :=
  let normA := alphanumericLower a
  let normB := alphanumericLower b
  if normA = normB then 1
  else if normA.length = 0 ∨ normB.length = 0 then 0
  else 1 - (levenshteinDistance normA normB : ℚ) / (max normA.length normB.length : ℚ)

/-- A row of the `merchants` table (columns the resolver touches). Row ids
are numbers from a fresh-id counter, standing in for generated uuids. -/
structure MerchantRow where
  id : ℕ
  user_id : String
  name : String
  raw_names : List String
deriving DecidableEq

/-- A row of the `merchant_aliases` table. -/
structure AliasRow where
  merchant_id : ℕ
  raw_name : String
  user_id : String
deriving DecidableEq

/-- The relational state `findOrCreateMerchant` reads and writes. -/
structure DB where
  merchants : List MerchantRow
  aliases : List AliasRow
  nextId : ℕ
deriving DecidableEq

/-- PostgREST `.single()`: the row when exactly one matches the filters,
otherwise an error, modelled as `none`. -/
def singleRow {α : Type} (p : α → Bool) (rows : List α) : Option α :=
  match rows.filter p with
  | [r] => some r
  | _ => none

/-- JS `String.prototype.includes`, on character lists (via the decidable
`List.IsInfix`). -/
def containsSub (needle haystack : List Char) : Bool := decide (needle <:+: haystack)

/-- The `.eq('user_id', …).eq('raw_name', …)` filter on `merchant_aliases`. -/
def aliasMatches (userId rawName : String) (a : AliasRow) : Bool :=
  a.user_id == userId && a.raw_name == rawName

/-- The number of alias rows stored for one `(user, raw_name)` key — the
quantity the `merchant_aliases` unique constraint keeps at ≤ 1. -/
def aliasCount (db : DB) (userId rawName : String) : ℕ :=
  (db.aliases.filter (aliasMatches userId rawName)).length

/-- The `merchant_aliases` upsert with `onConflict: 'user_id,raw_name'`:
update the conflicting row's `merchant_id`, or insert a new row. -/
def upsertAlias (db : DB) (merchantId : ℕ) (userId rawName : String) : DB :=
  if db.aliases.any (aliasMatches userId rawName) then
    { db with aliases := db.aliases.map (fun a =>
        if aliasMatches userId rawName a then { a with merchant_id := merchantId } else a) }
  else { db with aliases := db.aliases ++ [⟨merchantId, rawName, userId⟩] }

/-- The `raw_names` update on an existing merchant. The source passes the
`array_append_unique` rpc builder as the update value; modelled as the
append-if-absent that rpc performs (no verified claim reads `raw_names`). -/
def appendUnique (l : List String) (s : String) : List String :=
  if s ∈ l then l else l ++ [s]

/-- `findOrCreateMerchant` of `merchant-normalizer.ts`, as a pure function of
an explicit relational state. `normalizeMerchantName` (a fixed list of regex
strip rules plus a known-brand table, whose output this resolution logic
treats as an opaque string) is passed as a parameter, so everything proved
below holds for every normalization function. The merchant insert is
modelled as always committing (the source throws on a storage failure). -/
def findOrCreateMerchant (normalizeMerchantName : String → String) (db : DB)
    (userId rawName : String) : ℕ × DB :=
  let normalizedName := normalizeMerchantName rawName
  match singleRow (aliasMatches userId rawName) db.aliases with
  | some existingAlias => (existingAlias.merchant_id, db)
  | none =>
    match singleRow (fun m => m.user_id == userId && m.name == normalizedName) db.merchants with
    | some existingMerchant =>
      let db1 := { db with merchants := db.merchants.map (fun m =>
          if m.id = existingMerchant.id then
            { m with raw_names := appendUnique m.raw_names rawName }
          else m) }
      (existingMerchant.id, upsertAlias db1 existingMerchant.id userId rawName)
    | none =>
      match (db.merchants.filter (fun m => m.user_id == userId)).find?
          (fun m => decide ((0.8 : ℚ) < calculateSimilarity normalizedName m.name)) with
      | some similar => (similar.id, upsertAlias db similar.id userId rawName)
      | none =>
        let newId := db.nextId
        let db1 := { db with
          merchants := db.merchants ++ [⟨newId, userId, normalizedName, [rawName]⟩],
          nextId := db.nextId + 1 }
        (newId, upsertAlias db1 newId userId rawName)

/-! ## CSV ingestion (`csv-parser.ts`)

Strings are processed as `List Char`. JS `trim` and the `\s` class are
modelled by `Char.isWhitespace` (space, tab, CR, LF — the characters bank
CSV exports contain); `\d` is `Char.isDigit`; `toLowerCase` is
`Char.toLower`. -/

/-- JS `String.prototype.trim` on a character list. -/
def trimChars (l : List Char) : List Char :=
  ((l.dropWhile Char.isWhitespace).reverse.dropWhile Char.isWhitespace).reverse

/-- A run of `lo` to `hi` ASCII digits — the building block `\d{lo,hi}` of the
anchored date regexes. -/
def digitRun (lo hi : ℕ) (l : List Char) : Bool :=
  decide (lo ≤ l.length) && decide (l.length ≤ hi) && l.all Char.isDigit

/-- `^\d{4}-\d{2}-\d{2}$`. -/
def isoShape (l : List Char) : Bool :=
  match l.splitOn '-' with
  | [a, b, c] => digitRun 4 4 a && digitRun 2 2 b && digitRun 2 2 c
  | _ => false

/-- `looksLikeDate` of `csv-parser.ts`: `^\d{1,2}/\d{1,2}/\d{2,4}$`,
`^\d{4}-\d{2}-\d{2}$` or `^\d{1,2}-\d{1,2}-\d{2,4}$`. -/
def looksLikeDate (value : List Char) : Bool :=
  (match value.splitOn '/' with
   | [a, b, c] => digitRun 1 2 a && digitRun 1 2 b && digitRun 2 4 c
   | _ => false) ||
  isoShape value ||
  (match value.splitOn '-' with
   | [a, b, c] => digitRun 1 2 a && digitRun 1 2 b && digitRun 2 4 c
   | _ => false)

/-- `^-?\d+\.?\d*$`: an optional minus, one or more digits, an optional
point, zero or more digits. -/
def amountShape (l : List Char) : Bool :=
  let l1 := match l with
    | '-' :: r => r
    | _ => l
  match l1.splitOn '.' with
  | [a] => !a.isEmpty && a.all Char.isDigit
  | [a, b] => (!a.isEmpty && a.all Char.isDigit) && b.all Char.isDigit
  | _ => false

/-- `looksLikeAmount` of `csv-parser.ts`: strip `[$,"\s]`, then test the
amount shape. -/
def looksLikeAmount (value : List Char) : Bool :=
  amountShape (value.filter
    (fun c => !(c == '$' || c == ',' || c == '"' || c.isWhitespace)))

/-- `String.prototype.padStart(2, '0')` on a 1–2 digit group. -/
def pad2 (l : List Char) : List Char := if l.length = 1 then '0' :: l else l

/-- `parseInt` on a digit run (also the digit-sequence value inside
`parseFloat`). -/
def parseNatDigits (l : List Char) : ℕ :=
  l.foldl (fun acc c => 10 * acc + (c.toNat - '0'.toNat)) 0

/-- `parseDate` of `csv-parser.ts`. The final `new Date(cleaned)` fallback
accepts engine-defined date formats and is modelled as rejecting; none of
the verified claims depends on which extra formats that fallback admits. -/
def parseDate (dateStr : List Char) : Option (List Char) :=
  let cleaned := (trimChars dateStr).filter (fun c => !(c == '"' || c == '\''))
  if isoShape cleaned then some cleaned
  else
    match cleaned.splitOn '/' with
    | [month, day, year] =>
      if digitRun 1 2 month && digitRun 1 2 day && digitRun 4 4 year then
        some (year ++ '-' :: (pad2 month ++ '-' :: pad2 day))
      else if digitRun 1 2 month && digitRun 1 2 day && digitRun 2 2 year then
        let fullYear := if 50 < parseNatDigits year then '1' :: '9' :: year
                        else '2' :: '0' :: year
        some (fullYear ++ '-' :: (pad2 month ++ '-' :: pad2 day))
      else none
    | _ => none

/-- JS `parseFloat`: the longest numeric prefix
`[+-]? (\d* (\.\d*)?) ([eE][+-]?\d+)?` with at least one digit in the
mantissa; trailing garbage is ignored; no digits means `NaN`, modelled
`none`. (The `Infinity` spellings are not modelled.) -/
def parseFloatChars (l : List Char) : Option ℚ :=
  let signAndRest : ℚ × List Char :=
    match l with
    | '-' :: r => (-1, r)
    | '+' :: r => (1, r)
    | _ => (1, l)
  let l1 := signAndRest.2
  let ip := l1.takeWhile Char.isDigit
  let l2 := l1.dropWhile Char.isDigit
  let fpAndRest : List Char × List Char :=
    match l2 with
    | '.' :: r => (r.takeWhile Char.isDigit, r.dropWhile Char.isDigit)
    | _ => ([], l2)
  let fp := fpAndRest.1
  if ip.isEmpty && fp.isEmpty then none
  else
    let mantissa : ℚ := (parseNatDigits ip : ℚ) + (parseNatDigits fp : ℚ) / (10 : ℚ) ^ fp.length
    let expDigits : ℤ × List Char :=
      match fpAndRest.2 with
      | 'e' :: '-' :: r => (-1, r)
      | 'E' :: '-' :: r => (-1, r)
      | 'e' :: '+' :: r => (1, r)
      | 'E' :: '+' :: r => (1, r)
      | 'e' :: r => (1, r)
      | 'E' :: r => (1, r)
      | r => (0, r)
    let ds := expDigits.2.takeWhile Char.isDigit
    let ex : ℤ := if expDigits.1 = 0 ∨ ds.isEmpty then 0
                  else expDigits.1 * (parseNatDigits ds : ℤ)
    some (signAndRest.1 * mantissa * (10 : ℚ) ^ ex)

/-- `parseAmount` of `csv-parser.ts`. -/
def parseAmount (amountStr : List Char) : Option ℚ :=
  let cleaned := ((trimChars amountStr).filter
      (fun c => !(c == '"' || c == '\'' || c == '$' || c == '€' || c == '£' || c == '¥'))).filter
    (fun c => !c.isWhitespace)
  let isNegative :=
    (match cleaned with | '(' :: _ => true | _ => false) &&
    (match cleaned.getLast? with | some ')' => true | _ => false)
  let cleaned1 := if isNegative then (cleaned.drop 1).dropLast else cleaned
  let hasNegativeSign := match cleaned1 with | '-' :: _ => true | _ => false
  let cleaned2 := if hasNegativeSign then cleaned1.drop 1 else cleaned1
  let cleaned3 := cleaned2.filter (fun c => !(c == ','))
  match parseFloatChars cleaned3 with
  | none => none
  | some amount => some (if isNegative || hasNegativeSign then -amount else amount)

/-- The character loop of `splitCSVLine`: `current` accumulates the field,
`inQuotes` tracks the quote state, a doubled quote inside quotes is an
escaped quote. -/
def splitCSVLineAux (delimiter : Char) : List Char → Bool → List Char → List (List Char)
  | [], _, current => [trimChars current]
  | '"' :: '"' :: rest2, true, current => splitCSVLineAux delimiter rest2 true (current ++ ['"'])
  | '"' :: rest, true, current => splitCSVLineAux delimiter rest false current
  | '"' :: rest, false, current => splitCSVLineAux delimiter rest true current
  | c :: rest, inQuotes, current =>
    if c == delimiter && !inQuotes then
      trimChars current :: splitCSVLineAux delimiter rest inQuotes []
    else splitCSVLineAux delimiter rest inQuotes (current ++ [c])
termination_by l _ _ => l.length

/-- `splitCSVLine` of `csv-parser.ts`. -/
def splitCSVLine (line : List Char) (delimiter : Char) : List (List Char) :=
  splitCSVLineAux delimiter line false []

/-- The total tab count of `detectDelimiter` over the (at most 5) sampled
lines. -/
def sampleTabCount (lines : List (List Char)) : ℕ :=
  ((lines.take 5).map (fun l => (l.filter (fun c => c == '\t')).length)).sum

/-- The total comma count of `detectDelimiter` over the sampled lines. -/
def sampleCommaCount (lines : List (List Char)) : ℕ :=
  ((lines.take 5).map (fun l => (l.filter (fun c => c == ',')).length)).sum

/-- `detectDelimiter` of `csv-parser.ts`:
`tabCount > commaCount && tabCount >= sampleLines.length ? '\t' : ','`. -/
def detectDelimiter (lines : List (List Char)) : Char :=
  if sampleCommaCount lines < sampleTabCount lines ∧
      (lines.take 5).length ≤ sampleTabCount lines then '\t'
  else ','

/-- `line.split(/\r?\n/)`: split on LF, a directly preceding CR belonging to
the separator. (A CR at the very end of the input, with no LF after it, is
also stripped here; it is whitespace that every downstream use trims.) -/
def stripCR (l : List Char) : List Char :=
  match l.getLast? with
  | some '\r' => l.dropLast
  | _ => l

/-- The line list of `parseCSV`: split on `\r?\n`, keep lines with
non-blank content (`filter(line => line.trim())`). -/
def csvLines (content : List Char) : List (List Char) :=
  ((content.splitOn '\n').map stripCR).filter (fun l => !(trimChars l).isEmpty)

/-- `ColumnMapping` of `csv-parser.ts`. `amountIndex` is an `ℤ` because the
source can return it as `-1` when separate debit/credit columns exist. -/
structure ColumnMapping where
  dateIndex : ℕ
  descriptionIndex : ℕ
  amountIndex : ℤ
  debitIndex : Option ℕ
  creditIndex : Option ℕ
deriving DecidableEq

/-- The five mutable `…Index` variables of `detectColumns` (`none` models
`-1`). -/
structure ColScan where
  date : Option ℕ
  description : Option ℕ
  amount : Option ℕ
  debit : Option ℕ
  credit : Option ℕ
deriving DecidableEq

/-- One iteration of the header loop of `detectColumns` (header already
normalized). The date/description/amount indices keep the first match; the
debit/credit indices are overwritten by every match. -/
def detectColumnsStep (st : ColScan) (ih : ℕ × List Char) : ColScan :=
  let i := ih.1
  let h := ih.2
  let st :=
    if st.date = none ∧
        (containsSub "date".data h || h == "posted".data || containsSub "trans".data h) then
      { st with date := some i }
    else st
  let st :=
    if st.description = none ∧
        (containsSub "description".data h || containsSub "descrip".data h ||
         containsSub "merchant".data h || containsSub "payee".data h ||
         h == "name".data || h == "memo".data ||
         containsSub "narrative".data h || containsSub "details".data h) then
      { st with description := some i }
    else st
  let st :=
    if st.amount = none ∧
        (h == "amount".data || containsSub "amount".data h ||
         h == "value".data || h == "sum".data) then
      { st with amount := some i }
    else st
  let st :=
    if h == "debit".data || h == "withdrawal".data || containsSub "debit".data h then
      { st with debit := some i }
    else st
  if h == "credit".data || h == "deposit".data || containsSub "credit".data h then
    { st with credit := some i }
  else st

/-- The run of whitespace collapsing `replace(/\s+/g, ' ')`. -/
def collapseWs : List Char → List Char
  | [] => []
  | [c] => [if c.isWhitespace then ' ' else c]
  | c1 :: c2 :: rest =>
    if c1.isWhitespace && c2.isWhitespace then collapseWs (c2 :: rest)
    else (if c1.isWhitespace then ' ' else c1) :: collapseWs (c2 :: rest)

/-- The header normalization of `detectColumns`:
`h.toLowerCase().replace(/["'.]/g, '').replace(/\s+/g, ' ').trim()`. -/
def normalizeHeader (h : List Char) : List Char :=
  trimChars (collapseWs ((h.map Char.toLower).filter
    (fun c => !(c == '"' || c == '\'' || c == '.'))))

/-- `detectColumns` of `csv-parser.ts`. -/
def detectColumns (headers : List (List Char)) : Option ColumnMapping :=
  let lowerHeaders := headers.map normalizeHeader
  let st := lowerHeaders.enum.foldl detectColumnsStep ⟨none, none, none, none, none⟩
  let st :=
    if st.date = none ∧ 3 ≤ headers.length then
      { st with date := some 0, description := some 1, amount := some 2 }
    else st
  match st.date, st.description with
  | some di, some de =>
    let amountIndex : ℤ :=
      match st.amount with
      | some a => (a : ℤ)
      | none => if st.debit = none ∨ st.credit = none then (headers.length : ℤ) - 1 else -1
    some ⟨di, de, amountIndex, st.debit, st.credit⟩
  | _, _ => none

/-- `detectColumnsFromData` of `csv-parser.ts` — the headerless
content-shape detection; only the first matching field of each kind counts,
and the `else if` chain makes the three roles mutually exclusive per field. -/
def detectColumnsFromData (fields : List (List Char)) : Option ColumnMapping :=
  let st := fields.enum.foldl
    (fun (st : Option ℕ × Option ℕ × Option ℕ) ih =>
      let i := ih.1
      let field := ih.2
      if st.1 = none ∧ looksLikeDate field then (some i, st.2.1, st.2.2)
      else if st.2.2 = none ∧ looksLikeAmount field then (st.1, st.2.1, some i)
      else if st.2.1 = none ∧ 2 < field.length ∧
          !looksLikeDate field ∧ !looksLikeAmount field then (st.1, some i, st.2.2)
      else st)
    (none, none, none)
  match st.1, st.2.1, st.2.2 with
  | some di, some de, some ai => some ⟨di, de, (ai : ℤ), none, none⟩
  | _, _, _ => none

/-- `ParsedTransaction` of `csv-parser.ts`. -/
structure ParsedTransaction where
  date : List Char
  description : List Char
  amount : ℚ
  rawLine : List Char
deriving DecidableEq, Inhabited

/-- `CSVParseResult` of `csv-parser.ts`. -/
structure CSVParseResult where
  transactions : List ParsedTransaction
  errors : List (List Char)
  skipped : ℕ
deriving DecidableEq

/-- What one data row contributes: an error message (pushed and counted as
skipped), a silent skip (counted), or a transaction. -/
inductive RowOutcome where
  | rowError (msg : List Char)
  | rowSkip
  | rowTx (t : ParsedTransaction)
deriving DecidableEq

/-- `fields[i] || dflt`: an out-of-range index is `undefined` and an empty
field is falsy; both fall back to the default. -/
def fieldOr (fields : List (List Char)) (i : ℕ) (dflt : List Char) : List Char :=
  match fields.get? i with
  | some f => if f.isEmpty then dflt else f
  | none => dflt

/-- `fieldOr` at a possibly `-1` (signed) index. -/
def fieldOrZ (fields : List (List Char)) (i : ℤ) (dflt : List Char) : List Char :=
  if 0 ≤ i then fieldOr fields i.toNat dflt else dflt

/-- The amount computation of one data row of `parseCSV`: the debit/credit
branch when both columns exist (`debit && debit > 0` — JS truthiness
excludes `null` and `0`), otherwise the single amount column. -/
def amountOfRow (mapping : ColumnMapping) (fields : List (List Char)) : Option ℚ :=
  match mapping.debitIndex, mapping.creditIndex with
  | some di, some ci =>
    let debit := parseAmount (fieldOr fields di ['0'])
    let credit := parseAmount (fieldOr fields ci ['0'])
    let debitPos : Bool := match debit with | some d => decide (0 < d) | none => false
    let creditPos : Bool := match credit with | some c => decide (0 < c) | none => false
    if debitPos then debit
    else if creditPos then credit.map (fun c => -c)
    else some 0
  | _, _ => parseAmount (fieldOrZ fields mapping.amountIndex [])

/-- JS number-to-string for the row index of an error message. -/
def natToChars (n : ℕ) : List Char := (toString n).data

/-- The body of the data-row loop of `parseCSV` (the row's line already
trimmed). A row with an unparsable date or amount is an error; a row with an
empty description or a zero amount is silently skipped; otherwise the amount
is replaced by its absolute value and the transaction is kept. -/
def parseRow (mapping : ColumnMapping) (delimiter : Char) (rowNumber : ℕ)
    (line : List Char) : RowOutcome :=
  let fields := splitCSVLine line delimiter
  let dateStr := fields.get? mapping.dateIndex
  match parseDate (dateStr.getD []) with
  | none =>
    .rowError ("Row ".data ++ natToChars (rowNumber + 1) ++ ": Invalid date \"".data ++
      dateStr.getD "undefined".data ++ ['"'])
  | some date =>
    let description := trimChars
      ((fields.get? mapping.descriptionIndex |>.getD []).filter
        (fun c => !(c == '"' || c == '\'')))
    if description.isEmpty then .rowSkip
    else
      match amountOfRow mapping fields with
      | none => .rowError ("Row ".data ++ natToChars (rowNumber + 1) ++ ": Invalid amount".data)
      | some amount =>
        if amount = 0 then .rowSkip
        else .rowTx ⟨date, description, |amount|, line⟩

/-- `parseCSV` of `csv-parser.ts`. The final sort key `new
Date(t.date).getTime()` is modelled as the lexicographic order on the date
string, which agrees with the time order on the calendar-valid `YYYY-MM-DD`
strings `parseDate` emits. -/
def parseCSV (csvContent : String) : CSVParseResult :=
  let lines := csvLines csvContent.data
  if lines.length < 1 then ⟨[], ["CSV file is empty".data], 0⟩
  else
    let delimiter := detectDelimiter lines
    let firstLineFields := splitCSVLine lines.headI delimiter
    let firstLineIsData :=
      firstLineFields.any looksLikeDate && firstLineFields.any looksLikeAmount
    let mappingStart : Option ColumnMapping × ℕ :=
      if firstLineIsData then (detectColumnsFromData firstLineFields, 0)
      else (detectColumns firstLineFields, 1)
    match mappingStart.1 with
    | none =>
      ⟨[], [("Could not detect required columns. Please ensure your file has Date, " ++
        "Description, and Amount columns.").data], 0⟩
    | some mapping =>
      let outcomes := (lines.drop mappingStart.2).enum.filterMap
        (fun p =>
          let line := trimChars p.2
          if line.isEmpty then none
          else some (parseRow mapping delimiter (p.1 + mappingStart.2) line))
      let transactions := outcomes.filterMap
        (fun o => match o with | .rowTx t => some t | _ => none)
      let errors := outcomes.filterMap
        (fun o => match o with | .rowError m => some m | _ => none)
      let skipped := (outcomes.filter
        (fun o => match o with | .rowTx _ => false | _ => true)).length
      ⟨sortByKey (fun t => String.mk t.date) transactions, errors, skipped⟩

/-! ## Properties of the stable sort model -/

theorem sortByKey_sorted {α κ : Type} [LinearOrder κ] (key : α → κ) (l : List α) :
    (sortByKey key l).Sorted (fun a b => key a ≤ key b) := by
  haveI : IsTotal α (fun a b => key a ≤ key b) := ⟨fun a b => le_total _ _⟩
  haveI : IsTrans α (fun a b => key a ≤ key b) := ⟨fun _ _ _ h h' => le_trans h h'⟩
  exact List.sorted_insertionSort _ l

theorem sortByKey_perm {α κ : Type} [LinearOrder κ] (key : α → κ) (l : List α) :
    (sortByKey key l).Perm l :=
  List.perm_insertionSort _ l

theorem sortByKey_eq_self {α κ : Type} [LinearOrder κ] (key : α → κ) {l : List α}
    (h : l.Sorted (fun a b => key a ≤ key b)) : sortByKey key l = l :=
  List.Sorted.insertionSort_eq h

theorem sortByKey_length {α κ : Type} [LinearOrder κ] (key : α → κ) (l : List α) :
    (sortByKey key l).length = l.length :=
  (sortByKey_perm key l).length_eq

theorem mem_sortByKey {α κ : Type} [LinearOrder κ] (key : α → κ) {l : List α} {a : α} :
    a ∈ sortByKey key l ↔ a ∈ l :=
  (sortByKey_perm key l).mem_iff

/-- In a list sorted by `key`, the first element's key is at most the last
element's key. -/
theorem key_headI_le_key_getLastI {α κ : Type} [Inhabited α] [LinearOrder κ] (key : α → κ)
    {l : List α} (hs : l.Sorted (fun a b => key a ≤ key b)) (hne : l ≠ []) :
    key l.headI ≤ key l.getLastI := by
  induction l with
  | nil => exact absurd rfl hne
  | cons a t ih =>
    cases t with
    | nil => simp [List.getLastI_eq_getLast?]
    | cons b t' =>
      have h1 : key a ≤ key b := (List.rel_of_sorted_cons hs) b (by simp)
      have h2 := ih (List.Sorted.of_cons hs) (by simp)
      calc key (a :: b :: t').headI = key a := by simp
        _ ≤ key b := h1
        _ ≤ key (b :: t').getLastI := h2
        _ = key (a :: b :: t').getLastI := by
              simp [List.getLastI_eq_getLast?, List.getLast?_cons_cons]

/-! ## Levenshtein-distance facts -/

theorem levenshteinDistance_nil_left (ys : List Char) :
    levenshteinDistance [] ys = ys.length := by
  cases ys <;> simp [levenshteinDistance]

theorem levenshteinDistance_nil_right (xs : List Char) :
    levenshteinDistance xs [] = xs.length := by
  cases xs <;> simp [levenshteinDistance]

theorem levenshteinDistance_self (xs : List Char) : levenshteinDistance xs xs = 0 := by
  induction xs with
  | nil => simp [levenshteinDistance]
  | cons x t ih => simp [levenshteinDistance, ih]

/-! ## Recurring-detector structure lemmas -/

theorem mem_detectRecurringCharges {txs : List Transaction} {c : DetectedRecurring} :
    c ∈ detectRecurringCharges txs ↔
      ∃ p ∈ groupByMerchant txs, processGroup p.1 p.2 = some c := by
  simp [detectRecurringCharges, List.mem_filterMap]

/-- Everything a successful `processGroup` tells us: the gates passed and the
shape of the emitted record. -/
theorem processGroup_eq_some {m : String} {g : TransactionGroup} {c : DetectedRecurring}
    (h : processGroup m g = some c) :
    ¬ g.transactions.length < MIN_TRANSACTIONS ∧
    ∃ fr, detectFrequency g.dates = some fr ∧
      (checkAmountConsistency g.amounts).1 = true ∧
      c = { merchantId := m
            frequency := fr.1
            confidence := min (fr.2 + (checkAmountConsistency g.amounts).2) 1
            firstAmount := (sortByKey (fun t => t.date) g.transactions).headI.amount
            currentAmount := (sortByKey (fun t => t.date) g.transactions).getLastI.amount
            firstDate := (sortByKey id g.dates).headI
            lastDate := (sortByKey id g.dates).getLastI
            transactionCount := g.transactions.length } := by
  unfold processGroup at h
  split at h
  · exact absurd h (by simp)
  next h1 =>
    split at h
    · exact absurd h (by simp)
    next fr hdf =>
      refine ⟨h1, fr, hdf, ?_⟩
      dsimp only at h
      split at h
      · exact absurd h (by simp)
      next h2 =>
        exact ⟨by simpa using h2, (Option.some.inj h).symm⟩

theorem detectFrequency_eq_some {dates : List ℤ} {fr : RecurringFrequency × ℚ}
    (h : detectFrequency dates = some fr) :
    2 ≤ dates.length ∧ 1/2 ≤ fr.2 ∧ fr.2 ≤ 1 := by
  unfold detectFrequency at h
  split at h
  · exact absurd h (by simp)
  next h1 =>
    split at h
    · exact absurd h (by simp)
    next h2 =>
      refine ⟨by simpa [MIN_TRANSACTIONS, not_lt] using h1, ?_⟩
      split at h
      · exact absurd h (by simp)
      next p s heq =>
        split at h
        · exact absurd h (by simp)
        next h3 =>
          obtain rfl : fr = (p.frequency, min s 1) := (Option.some.inj h).symm
          have hs : (1/2 : ℚ) ≤ s := by
            have := not_lt.mp h3
            have hmc : MIN_CONFIDENCE = 1/2 := by norm_num [MIN_CONFIDENCE]
            linarith [hmc ▸ this]
          exact ⟨le_min hs (by norm_num), min_le_right _ _⟩

theorem checkAmountConsistency_boost_nonneg (amounts : List ℚ) :
    0 ≤ (checkAmountConsistency amounts).2 := by
  unfold checkAmountConsistency
  split
  · simp
  · have h1 : (0 : ℚ) ≤ ((consistentAmounts amounts).length : ℚ) / (amounts.length : ℚ) := by
      positivity
    simpa using mul_nonneg h1 (by norm_num)

/-- If no frequency bucket contains the mean interval, the best-match loop
keeps its initial state. -/
theorem bestPattern_of_no_bucket {dates : List ℤ}
    (h : ∀ p ∈ FREQUENCY_PATTERNS,
      ¬((p.minDays : ℚ) ≤ avgInterval dates ∧ avgInterval dates ≤ (p.maxDays : ℚ))) :
    bestPattern dates = (none, 0) := by
  unfold bestPattern
  have aux : ∀ (ps : List FrequencyPattern) (acc : Option FrequencyPattern × ℚ),
      (∀ p ∈ ps,
        ¬((p.minDays : ℚ) ≤ avgInterval dates ∧ avgInterval dates ≤ (p.maxDays : ℚ))) →
      ps.foldl
        (fun acc p =>
          if (p.minDays : ℚ) ≤ avgInterval dates ∧ avgInterval dates ≤ (p.maxDays : ℚ) then
            if acc.2 < patternScore dates p then (some p, patternScore dates p) else acc
          else acc) acc = acc := by
    intro ps
    induction ps with
    | nil => intro acc _; rfl
    | cons p rest ih =>
      intro acc hh
      rw [List.foldl_cons, if_neg (hh p (by simp))]
      exact ih acc (fun q hq => hh q (by simp [hq]))
  exact aux _ _ h

/-- If every bucket containing the mean scores below ½, the best score stays
below ½. -/
theorem bestPattern_score_lt {dates : List ℤ}
    (h : ∀ p ∈ FREQUENCY_PATTERNS,
      ((p.minDays : ℚ) ≤ avgInterval dates ∧ avgInterval dates ≤ (p.maxDays : ℚ)) →
      patternScore dates p < 1/2) :
    (bestPattern dates).2 < 1/2 := by
  unfold bestPattern
  have aux : ∀ (ps : List FrequencyPattern) (acc : Option FrequencyPattern × ℚ),
      (∀ p ∈ ps,
        ((p.minDays : ℚ) ≤ avgInterval dates ∧ avgInterval dates ≤ (p.maxDays : ℚ)) →
        patternScore dates p < 1/2) →
      acc.2 < 1/2 →
      (ps.foldl
        (fun acc p =>
          if (p.minDays : ℚ) ≤ avgInterval dates ∧ avgInterval dates ≤ (p.maxDays : ℚ) then
            if acc.2 < patternScore dates p then (some p, patternScore dates p) else acc
          else acc) acc).2 < 1/2 := by
    intro ps
    induction ps with
    | nil => intro acc _ hacc; exact hacc
    | cons p rest ih =>
      intro acc hh hacc
      rw [List.foldl_cons]
      refine ih _ (fun q hq hq2 => hh q (by simp [hq]) hq2) ?_
      by_cases hq : (p.minDays : ℚ) ≤ avgInterval dates ∧ avgInterval dates ≤ (p.maxDays : ℚ)
      · rw [if_pos hq]
        by_cases hlt : acc.2 < patternScore dates p
        · rw [if_pos hlt]
          exact hh p (by simp) hq
        · rw [if_neg hlt]; exact hacc
      · rw [if_neg hq]; exact hacc
  exact aux _ _ h (by norm_num)

/-- When the mean interval lies in the monthly bucket (and hence in no other
— the buckets are disjoint) and the monthly score is positive, the best-match
loop returns the monthly pattern with its score. -/
theorem bestPattern_of_monthly {dates : List ℤ}
    (h27 : (27 : ℚ) ≤ avgInterval dates) (h35 : avgInterval dates ≤ 35)
    (hpos : 0 < patternScore dates ⟨.monthly, 27, 35, 1.2⟩) :
    bestPattern dates =
      (some ⟨.monthly, 27, 35, 1.2⟩, patternScore dates ⟨.monthly, 27, 35, 1.2⟩) := by
  have c1 : ¬((5 : ℚ) ≤ avgInterval dates ∧ avgInterval dates ≤ 9) := by
    rintro ⟨-, h⟩; linarith
  have c2 : ¬((12 : ℚ) ≤ avgInterval dates ∧ avgInterval dates ≤ 16) := by
    rintro ⟨-, h⟩; linarith
  have c4 : ¬((85 : ℚ) ≤ avgInterval dates ∧ avgInterval dates ≤ 100) := by
    rintro ⟨h, -⟩; linarith
  have c5 : ¬((355 : ℚ) ≤ avgInterval dates ∧ avgInterval dates ≤ 375) := by
    rintro ⟨h, -⟩; linarith
  unfold bestPattern FREQUENCY_PATTERNS
  simp only [List.foldl_cons, List.foldl_nil]
  push_cast
  simp [c1, c2, c4, c5, h27, h35, hpos]

theorem detectFrequency_none_of_no_bucket {dates : List ℤ}
    (h : ∀ p ∈ FREQUENCY_PATTERNS,
      ¬((p.minDays : ℚ) ≤ avgInterval dates ∧ avgInterval dates ≤ (p.maxDays : ℚ))) :
    detectFrequency dates = none := by
  unfold detectFrequency
  split
  · rfl
  split
  · rfl
  rw [bestPattern_of_no_bucket h]

theorem detectFrequency_none_of_low_score {dates : List ℤ}
    (h : ∀ p ∈ FREQUENCY_PATTERNS,
      ((p.minDays : ℚ) ≤ avgInterval dates ∧ avgInterval dates ≤ (p.maxDays : ℚ)) →
      patternScore dates p < 1/2) :
    detectFrequency dates = none := by
  have hb := bestPattern_score_lt h
  unfold detectFrequency
  split
  · rfl
  split
  · rfl
  rcases hbp : bestPattern dates with ⟨o, s⟩
  rw [hbp] at hb
  cases o with
  | none => rfl
  | some p =>
    have hb' : s < MIN_CONFIDENCE := by
      have hmc : MIN_CONFIDENCE = 1/2 := by norm_num [MIN_CONFIDENCE]
      rw [hmc]
      simpa using hb
    show (if s < MIN_CONFIDENCE then (none : Option (RecurringFrequency × ℚ))
          else some (p.frequency, min s 1)) = none
    rw [if_pos hb']

theorem checkAmountConsistency_false_of {amounts : List ℚ}
    (h : ((consistentAmounts amounts).length : ℚ) < 7/10 * (amounts.length : ℚ)) :
    (checkAmountConsistency amounts).1 = false := by
  unfold checkAmountConsistency
  split
  · rfl
  next hlen =>
    show decide _ = false
    rw [decide_eq_false_iff_not]
    intro hge
    have hlen2 : 2 ≤ amounts.length := not_lt.mp hlen
    have hpos : (0 : ℚ) < (amounts.length : ℚ) := by
      exact_mod_cast Nat.lt_of_lt_of_le (by norm_num) hlen2
    rw [le_div_iff₀ hpos] at hge
    have h07 : (0.7 : ℚ) = 7/10 := by norm_num
    nlinarith [hge, h]

/-! ## Grouping lemmas -/

theorem findGroup_addToGroups_self (m : String) (tx : Transaction)
    (gs : List (String × TransactionGroup)) :
    findGroup m (addToGroups m tx gs) =
      some (match findGroup m gs with
            | none => ⟨m, [tx], [tx.amount], [tx.date]⟩
            | some g => extendGroup g tx) := by
  induction gs with
  | nil => simp [addToGroups, findGroup]
  | cons kg rest ih =>
    obtain ⟨k, g⟩ := kg
    by_cases hk : k = m
    · subst hk
      simp [addToGroups, findGroup]
    · simp [addToGroups, findGroup, hk, ih]

theorem findGroup_addToGroups_ne {m' m : String} (h : m' ≠ m) (tx : Transaction)
    (gs : List (String × TransactionGroup)) :
    findGroup m (addToGroups m' tx gs) = findGroup m gs := by
  induction gs with
  | nil => simp [addToGroups, findGroup, h]
  | cons kg rest ih =>
    obtain ⟨k, g⟩ := kg
    by_cases hk : k = m'
    · subst hk
      simp [addToGroups, findGroup, h, ih]
    · by_cases hm : k = m
      · subst hm
        simp [addToGroups, findGroup, hk]
      · simp [addToGroups, findGroup, hk, hm, ih]

theorem mem_keys_addToGroups {k' m : String} {tx : Transaction}
    {gs : List (String × TransactionGroup)} :
    k' ∈ (addToGroups m tx gs).map Prod.fst ↔ k' ∈ gs.map Prod.fst ∨ k' = m := by
  induction gs with
  | nil => simp [addToGroups]
  | cons kg rest ih =>
    obtain ⟨k, g⟩ := kg
    by_cases hk : k = m
    · subst hk
      simp [addToGroups]
      tauto
    · simp [addToGroups, hk, ih]
      tauto

theorem keys_nodup_addToGroups {m : String} {tx : Transaction}
    {gs : List (String × TransactionGroup)} (h : (gs.map Prod.fst).Nodup) :
    ((addToGroups m tx gs).map Prod.fst).Nodup := by
  induction gs with
  | nil => simp [addToGroups]
  | cons kg rest ih =>
    obtain ⟨k, g⟩ := kg
    rw [List.map_cons, List.nodup_cons] at h
    by_cases hk : k = m
    · subst hk
      simpa [addToGroups, List.nodup_cons] using h
    · rw [addToGroups, if_neg hk, List.map_cons, List.nodup_cons]
      refine ⟨?_, ih h.2⟩
      rw [mem_keys_addToGroups]
      rintro (hmem | rfl)
      · exact h.1 hmem
      · exact hk rfl

theorem groupByMerchant_keys_nodup (txs : List Transaction) :
    ((groupByMerchant txs).map Prod.fst).Nodup := by
  unfold groupByMerchant
  have aux : ∀ (l : List Transaction) (gs : List (String × TransactionGroup)),
      (gs.map Prod.fst).Nodup →
      ((l.foldl
        (fun gs tx =>
          match tx.merchant_id with
          | none => gs
          | some m => if tx.pending then gs else addToGroups m tx gs) gs).map Prod.fst).Nodup := by
    intro l
    induction l with
    | nil => intro gs h; exact h
    | cons tx rest ih =>
      intro gs h
      rw [List.foldl_cons]
      refine ih _ ?_
      cases htx : tx.merchant_id with
      | none => exact h
      | some m =>
        by_cases hp : tx.pending
        · simpa [hp] using h
        · simpa [hp] using keys_nodup_addToGroups h
  exact aux txs [] (by simp)

theorem findGroup_of_mem {gs : List (String × TransactionGroup)}
    {p : String × TransactionGroup} (hmem : p ∈ gs) (hnd : (gs.map Prod.fst).Nodup) :
    findGroup p.1 gs = some p.2 := by
  induction gs with
  | nil => cases hmem
  | cons kg rest ih =>
    obtain ⟨k, g⟩ := kg
    rw [List.map_cons, List.nodup_cons] at hnd
    rcases List.mem_cons.mp hmem with rfl | hmem'
    · simp [findGroup]
    · rw [findGroup]
      rw [if_neg ?_]
      · exact ih hmem' hnd.2
      · rintro rfl
        exact hnd.1 (List.mem_map.mpr ⟨p, hmem', rfl⟩)

theorem buildGroup_cons (m : String) (og : Option TransactionGroup) (tx : Transaction)
    (rest : List Transaction) :
    buildGroup m og (tx :: rest) =
      buildGroup m
        (some (match og with
               | none => ⟨m, [tx], [tx.amount], [tx.date]⟩
               | some g => extendGroup g tx)) rest := by
  cases og <;> rfl

theorem buildGroup_some (m : String) (g : TransactionGroup) (l : List Transaction) :
    buildGroup m (some g) l =
      some { g with
             transactions := g.transactions ++ l,
             amounts := g.amounts ++ l.map (fun t => t.amount),
             dates := g.dates ++ l.map (fun t => t.date) } := by
  induction l generalizing g with
  | nil => simp [buildGroup]
  | cons tx rest ih =>
    rw [buildGroup]
    rw [ih]
    simp [extendGroup]

theorem findGroup_groupByMerchant (txs : List Transaction) (m : String) :
    findGroup m (groupByMerchant txs) = buildGroup m none (merchantGroupTxs m txs) := by
  unfold groupByMerchant merchantGroupTxs
  have aux : ∀ (l : List Transaction) (gs : List (String × TransactionGroup)),
      findGroup m (l.foldl
        (fun gs tx =>
          match tx.merchant_id with
          | none => gs
          | some m => if tx.pending then gs else addToGroups m tx gs) gs) =
      buildGroup m (findGroup m gs)
        (l.filter (fun t => t.merchant_id == some m && !t.pending)) := by
    intro l
    induction l with
    | nil => intro gs; rfl
    | cons tx rest ih =>
      intro gs
      rw [List.foldl_cons]
      cases htx : tx.merchant_id with
      | none => rw [ih]; simp [htx]
      | some m' =>
        by_cases hp : tx.pending
        · rw [ih]
          simp [htx, hp]
        · by_cases hm : m' = m
          · subst hm
            rw [ih]
            simp only [htx, hp, if_neg Bool.false_ne_true]
            rw [findGroup_addToGroups_self,
              List.filter_cons_of_pos (by simp [htx, hp]), buildGroup_cons]
          · rw [ih]
            simp only [htx, hp, if_neg Bool.false_ne_true]
            rw [findGroup_addToGroups_ne hm,
              List.filter_cons_of_neg (by simp [htx, hm])]
  exact aux txs []

theorem findGroup_groupByMerchant_eq (txs : List Transaction) (m : String) :
    findGroup m (groupByMerchant txs) =
      if merchantGroupTxs m txs = [] then none
      else
        some ⟨m, merchantGroupTxs m txs,
              (merchantGroupTxs m txs).map (fun t => t.amount),
              (merchantGroupTxs m txs).map (fun t => t.date)⟩ := by
  rw [findGroup_groupByMerchant]
  cases hl : merchantGroupTxs m txs with
  | nil => rfl
  | cons tx rest =>
    rw [buildGroup]
    rw [buildGroup_some]
    simp

/-! ## Claim theorems -/

/-- C6: for all strings `a` and `b`, `calculateSimilarity a b` equals
`1 - editDistance / max(len_a, len_b)` computed on the alphanumeric-only
lowercased forms of `a` and `b`, with the Levenshtein distance as the edit
distance; equal reduced strings give 1, and an empty reduced string (with the
two unequal) gives 0. -/
theorem C6_calculateSimilarity (a b : String) :
    calculateSimilarity a b =
      1 - (levenshteinDistance (alphanumericLower a) (alphanumericLower b) : ℚ) /
        (max (alphanumericLower a).length (alphanumericLower b).length : ℚ) ∧
    (alphanumericLower a = alphanumericLower b → calculateSimilarity a b = 1) ∧
    ((alphanumericLower a = [] ∨ alphanumericLower b = []) →
      alphanumericLower a ≠ alphanumericLower b → calculateSimilarity a b = 0) := by
  unfold calculateSimilarity
  by_cases heq : alphanumericLower a = alphanumericLower b
  · rw [heq]
    simp [levenshteinDistance_self]
  · by_cases hz : (alphanumericLower a).length = 0 ∨ (alphanumericLower b).length = 0
    · have h0 :
          1 - (levenshteinDistance (alphanumericLower a) (alphanumericLower b) : ℚ) /
            (max (alphanumericLower a).length (alphanumericLower b).length : ℚ) = 0 := by
        rcases hz with hz | hz
        · have ha : alphanumericLower a = [] := List.length_eq_zero.mp hz
          have hb : (alphanumericLower b).length ≠ 0 := by
            intro hb0
            exact heq (by rw [ha, List.length_eq_zero.mp hb0])
          rw [ha, levenshteinDistance_nil_left]
          rw [sub_eq_zero]
          rw [eq_comm, div_eq_one_iff_eq (by simpa using fun h => hb (by simpa using h))]
          simp
        · have hb : alphanumericLower b = [] := List.length_eq_zero.mp hz
          have ha : (alphanumericLower a).length ≠ 0 := by
            intro ha0
            exact heq (by rw [hb, List.length_eq_zero.mp ha0])
          rw [hb, levenshteinDistance_nil_right]
          rw [sub_eq_zero]
          rw [eq_comm, div_eq_one_iff_eq (by simpa using fun h => ha (by simpa using h))]
          simp
      refine ⟨?_, fun h => absurd h heq, fun _ _ => ?_⟩
      · rw [if_neg heq, if_pos hz]
        exact h0.symm
      · rw [if_neg heq, if_pos hz]
    · refine ⟨?_, fun h => absurd h heq, fun h _ => ?_⟩
      · rw [if_neg heq, if_neg hz]
      · exfalso
        rcases h with h | h <;> exact hz (by simp [h])

/-- C2: `calculateDriftMetrics` always returns a value (it is a total
function of its embedding); `annualizedIncrease` is the compound-growth
formula exactly when `firstAmount > 0` and `monthsTracked > 0` and 0
otherwise, and `percentChange` is the relative change times 100 exactly when
`firstAmount > 0` and 0 otherwise. -/
theorem C2_calculateDriftMetrics (firstAmount currentAmount : ℝ) (firstDate lastDate : CalDate) :
    (0 < firstAmount → 0 < (calculateDriftMetrics firstAmount currentAmount firstDate lastDate).monthsTracked →
      (calculateDriftMetrics firstAmount currentAmount firstDate lastDate).annualizedIncrease =
        ((currentAmount / firstAmount) ^
          ((12 : ℝ) / ((calculateDriftMetrics firstAmount currentAmount firstDate lastDate).monthsTracked : ℝ)) - 1) * 100) ∧
    (¬ (0 < firstAmount ∧
        0 < (calculateDriftMetrics firstAmount currentAmount firstDate lastDate).monthsTracked) →
      (calculateDriftMetrics firstAmount currentAmount firstDate lastDate).annualizedIncrease = 0) ∧
    (0 < firstAmount →
      (calculateDriftMetrics firstAmount currentAmount firstDate lastDate).percentChange =
        (currentAmount - firstAmount) / firstAmount * 100) ∧
    (firstAmount ≤ 0 →
      (calculateDriftMetrics firstAmount currentAmount firstDate lastDate).percentChange = 0) ∧
    (calculateDriftMetrics firstAmount currentAmount firstDate lastDate).totalChange =
      currentAmount - firstAmount := by
  unfold calculateDriftMetrics
  refine ⟨fun h1 h2 => ?_, fun h => ?_, fun h1 => ?_, fun h1 => ?_, rfl⟩
  · simp only
    rw [if_pos ⟨h1, by exact h2⟩]
  · simp only
    rw [if_neg (by exact h)]
  · simp only
    rw [if_pos h1]
  · simp only
    rw [if_neg (not_lt.mpr h1)]

/-- The adjacent-pair loop of `detectPriceChanges`, as a `filterMap` over the
adjacent pairs. -/
theorem priceEvents_eq_filterMap (rc : RecurringCharge) (l : List Transaction) :
    priceEvents rc l =
      (l.zip l.tail).filterMap
        (fun p => if 1 < |pairChangePercent p.1.amount p.2.amount|
                  then some (priceEvent rc p.1 p.2) else none) := by
  induction l with
  | nil => rfl
  | cons a t ih =>
    cases t with
    | nil => rfl
    | cons b t' =>
      rw [priceEvents]
      rw [ih]
      by_cases h : 1 < |pairChangePercent a.amount b.amount|
      · simp [h]
      · simp [h]

/-- C3: on a date-sorted list of non-pending transactions of the charge's
merchant, `detectPriceChanges` emits exactly one event per adjacent pair
whose `pairChangePercent` (0 when the previous amount is not positive)
exceeds 1% in absolute value — and no other events. -/
theorem C3_detectPriceChanges (transactions : List Transaction)
    (recurringCharge : RecurringCharge)
    (hm : ∀ t ∈ transactions,
      t.merchant_id = some recurringCharge.merchant_id ∧ t.pending = false)
    (hs : transactions.Pairwise (fun a b => a.date ≤ b.date)) :
    detectPriceChanges transactions recurringCharge =
      (transactions.zip transactions.tail).filterMap
        (fun p => if 1 < |pairChangePercent p.1.amount p.2.amount|
                  then some (priceEvent recurringCharge p.1 p.2) else none) := by
  unfold detectPriceChanges
  have hf : transactions.filter
      (fun t => t.merchant_id == some recurringCharge.merchant_id && !t.pending) =
      transactions := by
    rw [List.filter_eq_self]
    intro t ht
    have := hm t ht
    simp [this.1, this.2]
  rw [hf, sortByKey_eq_self _ hs]
  show (if transactions.length < 2 then ([] : List PriceChangeDetection)
        else priceEvents recurringCharge transactions) = _
  split_ifs with h
  · match transactions, h with
    | [], _ => rfl
    | [t], _ => rfl
  · exact priceEvents_eq_filterMap recurringCharge transactions

/-- C1: four non-pending transactions of one merchant at 15.99, 15.99,
17.99, 17.99 whose consecutive dates are 27–35 days apart yield exactly one
candidate: monthly, confidence ≥ ½, firstAmount 15.99, currentAmount 17.99,
4 transactions. -/
theorem C1_monthly_recurring (m i1 i2 i3 i4 : String) (d1 d2 d3 d4 : ℤ)
    (h21 : 27 ≤ d2 - d1) (h21' : d2 - d1 ≤ 35)
    (h32 : 27 ≤ d3 - d2) (h32' : d3 - d2 ≤ 35)
    (h43 : 27 ≤ d4 - d3) (h43' : d4 - d3 ≤ 35) :
    ∃ c, detectRecurringCharges
        [⟨i1, some m, 15.99, d1, false⟩, ⟨i2, some m, 15.99, d2, false⟩,
         ⟨i3, some m, 17.99, d3, false⟩, ⟨i4, some m, 17.99, d4, false⟩] = [c] ∧
      c.merchantId = m ∧ c.frequency = .monthly ∧ (1/2 : ℚ) ≤ c.confidence ∧
      c.firstAmount = 15.99 ∧ c.currentAmount = 17.99 ∧ c.transactionCount = 4 := by
  have q21 : (27 : ℚ) ≤ (d2 : ℚ) - (d1 : ℚ) := by exact_mod_cast h21
  have q32 : (27 : ℚ) ≤ (d3 : ℚ) - (d2 : ℚ) := by exact_mod_cast h32
  have q43 : (27 : ℚ) ≤ (d4 : ℚ) - (d3 : ℚ) := by exact_mod_cast h43
  have q21' : (d2 : ℚ) - (d1 : ℚ) ≤ 35 := by exact_mod_cast h21'
  have q32' : (d3 : ℚ) - (d2 : ℚ) ≤ 35 := by exact_mod_cast h32'
  have q43' : (d4 : ℚ) - (d3 : ℚ) ≤ 35 := by exact_mod_cast h43'
  have hsorted : ([d1, d2, d3, d4] : List ℤ).Sorted (fun a b => id a ≤ id b) := by
    simp [List.sorted_cons, List.forall_mem_cons]
    omega
  have hIv : dateIntervals [d1, d2, d3, d4] = [d2 - d1, d3 - d2, d4 - d3] := by
    unfold dateIntervals
    rw [sortByKey_eq_self _ hsorted]
    rfl
  have hA27 : (27 : ℚ) ≤ avgInterval [d1, d2, d3, d4] := by
    unfold avgInterval
    rw [hIv, le_div_iff₀ (by simp)]
    simp only [List.map_cons, List.map_nil, List.sum_cons, List.sum_nil,
      List.length_cons, List.length_nil]
    push_cast
    linarith
  have hA35 : avgInterval [d1, d2, d3, d4] ≤ 35 := by
    unfold avgInterval
    rw [hIv, div_le_iff₀ (by simp)]
    simp only [List.map_cons, List.map_nil, List.sum_cons, List.sum_nil,
      List.length_cons, List.length_nil]
    push_cast
    linarith
  have hscore : patternScore [d1, d2, d3, d4] ⟨.monthly, 27, 35, 1.2⟩ = 1.2 := by
    unfold patternScore
    rw [hIv]
    rw [List.filter_eq_self.mpr ?_]
    · norm_num
    · intro a ha
      simp only [decide_eq_true_eq]
      fin_cases ha <;> constructor <;> omega
  have hpos : (0 : ℚ) < patternScore [d1, d2, d3, d4] ⟨.monthly, 27, 35, 1.2⟩ := by
    rw [hscore]; norm_num
  have hbp := bestPattern_of_monthly hA27 hA35 hpos
  have hdf : detectFrequency [d1, d2, d3, d4] = some (.monthly, 1) := by
    unfold detectFrequency
    rw [if_neg (by simp [MIN_TRANSACTIONS])]
    rw [if_neg (by rw [hIv]; simp)]
    rw [hbp]
    show (if patternScore [d1, d2, d3, d4] ⟨.monthly, 27, 35, 1.2⟩ < MIN_CONFIDENCE then none
          else some (RecurringFrequency.monthly,
            min (patternScore [d1, d2, d3, d4] ⟨.monthly, 27, 35, 1.2⟩) 1)) =
        some (RecurringFrequency.monthly, 1)
    rw [hscore]
    rw [if_neg (by norm_num [MIN_CONFIDENCE])]
    rw [min_eq_right (by norm_num)]
  have hca : checkAmountConsistency [(15.99 : ℚ), 15.99, 17.99, 17.99] = (true, 1/5) := by
    with_unfolding_all decide
  have hstx : sortByKey (fun t : Transaction => t.date)
      [⟨i1, some m, 15.99, d1, false⟩, ⟨i2, some m, 15.99, d2, false⟩,
       ⟨i3, some m, 17.99, d3, false⟩, ⟨i4, some m, 17.99, d4, false⟩] =
      [⟨i1, some m, 15.99, d1, false⟩, ⟨i2, some m, 15.99, d2, false⟩,
       ⟨i3, some m, 17.99, d3, false⟩, ⟨i4, some m, 17.99, d4, false⟩] := by
    apply sortByKey_eq_self
    simp [List.sorted_cons, List.forall_mem_cons]
    omega
  have hsd : sortByKey (id : ℤ → ℤ) [d1, d2, d3, d4] = [d1, d2, d3, d4] :=
    sortByKey_eq_self _ hsorted
  have hpg : processGroup m
      ⟨m, [⟨i1, some m, 15.99, d1, false⟩, ⟨i2, some m, 15.99, d2, false⟩,
           ⟨i3, some m, 17.99, d3, false⟩, ⟨i4, some m, 17.99, d4, false⟩],
        [15.99, 15.99, 17.99, 17.99], [d1, d2, d3, d4]⟩ =
      some ⟨m, .monthly, min ((1 : ℚ) + 1/5) 1, 15.99, 17.99, d1, d4, 4⟩ := by
    unfold processGroup
    rw [if_neg (by simp [MIN_TRANSACTIONS])]
    dsimp only
    rw [hdf, hca, hstx, hsd]
    simp [List.getLastI]
  have hgroups : groupByMerchant
      [⟨i1, some m, 15.99, d1, false⟩, ⟨i2, some m, 15.99, d2, false⟩,
       ⟨i3, some m, 17.99, d3, false⟩, ⟨i4, some m, 17.99, d4, false⟩] =
      [(m, ⟨m, [⟨i1, some m, 15.99, d1, false⟩, ⟨i2, some m, 15.99, d2, false⟩,
               ⟨i3, some m, 17.99, d3, false⟩, ⟨i4, some m, 17.99, d4, false⟩],
            [15.99, 15.99, 17.99, 17.99], [d1, d2, d3, d4]⟩)] := by
    simp [groupByMerchant, addToGroups, extendGroup]
  refine ⟨⟨m, .monthly, min ((1 : ℚ) + 1/5) 1, 15.99, 17.99, d1, d4, 4⟩, ?_, rfl, rfl,
    le_min (by norm_num) (by norm_num), rfl, rfl, rfl⟩
  unfold detectRecurringCharges
  rw [hgroups]
  simp [hpg]

/-- C1 at a concrete input: dates exactly 30 days apart. -/
theorem C1_monthly_recurring_witness :
    (27 ≤ (30 : ℤ) - 0 ∧ (30 : ℤ) - 0 ≤ 35) ∧
    ∃ c, detectRecurringCharges
        [⟨"a", some "m", 15.99, 0, false⟩, ⟨"b", some "m", 15.99, 30, false⟩,
         ⟨"c", some "m", 17.99, 60, false⟩, ⟨"d", some "m", 17.99, 90, false⟩] = [c] ∧
      c.merchantId = "m" ∧ c.frequency = .monthly ∧ (1/2 : ℚ) ≤ c.confidence ∧
      c.firstAmount = 15.99 ∧ c.currentAmount = 17.99 ∧ c.transactionCount = 4 :=
  ⟨by decide,
   C1_monthly_recurring "m" "a" "b" "c" "d" 0 30 60 90
     (by decide) (by decide) (by decide) (by decide) (by decide) (by decide)⟩

/-- C4: `detectRecurringCharges` emits no candidate for a merchant whose
group has fewer than 2 non-pending transactions, or whose mean interval lies
in no frequency bucket, or whose every containing bucket scores below ½, or
whose consistent-amount count is below 70 %. -/
theorem C4_no_candidate (txs : List Transaction) (m : String)
    (h : (merchantGroupTxs m txs).length < 2 ∨
      (∀ p ∈ FREQUENCY_PATTERNS,
         ¬((p.minDays : ℚ) ≤ avgInterval ((merchantGroupTxs m txs).map (fun t => t.date)) ∧
           avgInterval ((merchantGroupTxs m txs).map (fun t => t.date)) ≤ (p.maxDays : ℚ))) ∨
      (∀ p ∈ FREQUENCY_PATTERNS,
         ((p.minDays : ℚ) ≤ avgInterval ((merchantGroupTxs m txs).map (fun t => t.date)) ∧
           avgInterval ((merchantGroupTxs m txs).map (fun t => t.date)) ≤ (p.maxDays : ℚ)) →
         patternScore ((merchantGroupTxs m txs).map (fun t => t.date)) p < 1/2) ∨
      ((consistentAmounts ((merchantGroupTxs m txs).map (fun t => t.amount))).length : ℚ) <
        7/10 * (((merchantGroupTxs m txs).map (fun t => t.amount)).length : ℚ)) :
    ∀ c ∈ detectRecurringCharges txs, c.merchantId ≠ m := by
  intro c hc hcm
  obtain ⟨p, hp, hsome⟩ := mem_detectRecurringCharges.mp hc
  obtain ⟨hgate1, fr, hdf, hcons, hcrec⟩ := processGroup_eq_some hsome
  have hmid : c.merchantId = p.1 := by rw [hcrec]
  rw [hmid] at hcm
  subst hcm
  have hfind := findGroup_of_mem hp (groupByMerchant_keys_nodup txs)
  rw [findGroup_groupByMerchant_eq] at hfind
  by_cases hnil : merchantGroupTxs p.1 txs = []
  · rw [if_pos hnil] at hfind
    cases hfind
  · rw [if_neg hnil] at hfind
    have hg : p.2 = ⟨p.1, merchantGroupTxs p.1 txs,
        (merchantGroupTxs p.1 txs).map (fun t => t.amount),
        (merchantGroupTxs p.1 txs).map (fun t => t.date)⟩ := (Option.some.inj hfind).symm
    rcases h with h1 | h2 | h3 | h4
    · apply hgate1
      rw [hg]
      simpa [MIN_TRANSACTIONS] using h1
    · have hnone := detectFrequency_none_of_no_bucket h2
      rw [hg] at hdf
      dsimp only at hdf
      rw [hnone] at hdf
      cases hdf
    · have hnone := detectFrequency_none_of_low_score h3
      rw [hg] at hdf
      dsimp only at hdf
      rw [hnone] at hdf
      cases hdf
    · have hfalse := checkAmountConsistency_false_of h4
      rw [hg] at hcons
      dsimp only at hcons
      rw [hfalse] at hcons
      cases hcons

/-- C4 at a concrete input: a merchant with a single transaction is not
recurring. -/
theorem C4_no_candidate_witness :
    List.Forall (fun c => c.merchantId ≠ "m")
      (detectRecurringCharges [⟨"t1", some "m", 10, 0, false⟩]) :=
  List.forall_iff_forall_mem.mpr
    (C4_no_candidate [⟨"t1", some "m", 10, 0, false⟩] "m" (Or.inl (by decide)))

/-- C9: every candidate `detectRecurringCharges` emits — for any input list
whatsoever — has confidence in `[½, 1]`, at least 2 transactions, and a
first-seen date no later than its last-seen date. -/
theorem C9_candidate_invariants (txs : List Transaction) :
    ∀ c ∈ detectRecurringCharges txs,
      1/2 ≤ c.confidence ∧ c.confidence ≤ 1 ∧
      2 ≤ c.transactionCount ∧ c.firstDate ≤ c.lastDate := by
  intro c hc
  obtain ⟨p, hp, hsome⟩ := mem_detectRecurringCharges.mp hc
  obtain ⟨hgate1, fr, hdf, hcons, hcrec⟩ := processGroup_eq_some hsome
  obtain ⟨hlen, hfr1, hfr2⟩ := detectFrequency_eq_some hdf
  have hboost := checkAmountConsistency_boost_nonneg p.2.amounts
  subst hcrec
  refine ⟨le_min (by linarith) (by norm_num), min_le_right _ _, ?_, ?_⟩
  · simpa [MIN_TRANSACTIONS, not_lt] using hgate1
  · have hs := sortByKey_sorted (id : ℤ → ℤ) p.2.dates
    have hne : sortByKey (id : ℤ → ℤ) p.2.dates ≠ [] := by
      intro h0
      have hl := sortByKey_length (id : ℤ → ℤ) p.2.dates
      rw [h0] at hl
      simp at hl
      omega
    simpa using key_headI_le_key_getLastI id hs hne

set_option maxRecDepth 4000 in
/-- C9 at a concrete input: the one candidate of a 4-transaction monthly
history satisfies all three invariants. -/
theorem C9_candidate_invariants_witness :
    1/2 ≤ (⟨"m", .monthly, 1, 15.99, 17.99, 0, 90, 4⟩ : DetectedRecurring).confidence ∧
    (⟨"m", .monthly, 1, 15.99, 17.99, 0, 90, 4⟩ : DetectedRecurring).confidence ≤ 1 ∧
    2 ≤ (⟨"m", .monthly, 1, 15.99, 17.99, 0, 90, 4⟩ : DetectedRecurring).transactionCount ∧
    (⟨"m", .monthly, 1, 15.99, 17.99, 0, 90, 4⟩ : DetectedRecurring).firstDate ≤
      (⟨"m", .monthly, 1, 15.99, 17.99, 0, 90, 4⟩ : DetectedRecurring).lastDate :=
  C9_candidate_invariants
    [⟨"a", some "m", 15.99, 0, false⟩, ⟨"b", some "m", 15.99, 30, false⟩,
     ⟨"c", some "m", 17.99, 60, false⟩, ⟨"d", some "m", 17.99, 90, false⟩]
    ⟨"m", .monthly, 1, 15.99, 17.99, 0, 90, 4⟩ (by with_unfolding_all decide)

/-- C3 at a concrete input: two same-merchant charges 15.99 → 17.99 on
consecutive days. -/
theorem C3_detectPriceChanges_witness :
    detectPriceChanges
        [⟨"t1", some "m", 15.99, 0, false⟩, ⟨"t2", some "m", 17.99, 30, false⟩]
        ⟨"rc1", "m"⟩ =
      ([(⟨"t1", some "m", 15.99, 0, false⟩ : Transaction),
        ⟨"t2", some "m", 17.99, 30, false⟩].zip
        [(⟨"t1", some "m", 15.99, 0, false⟩ : Transaction),
         ⟨"t2", some "m", 17.99, 30, false⟩].tail).filterMap
        (fun p => if 1 < |pairChangePercent p.1.amount p.2.amount|
                  then some (priceEvent ⟨"rc1", "m"⟩ p.1 p.2) else none) :=
  C3_detectPriceChanges _ _ (by decide) (by decide)

/-! ## Merchant-resolution lemmas -/

theorem singleRow_eq_some {α : Type} {p : α → Bool} {rows : List α} {r : α}
    (h : singleRow p rows = some r) : rows.filter p = [r] := by
  unfold singleRow at h
  cases hf : rows.filter p with
  | nil => rw [hf] at h; cases h
  | cons a t =>
    cases t with
    | nil =>
      rw [hf] at h
      have ha : a = r := by simpa using h
      rw [ha]
    | cons b t' => rw [hf] at h; cases h

theorem singleRow_eq_none_of {α : Type} {p : α → Bool} {rows : List α}
    (h : singleRow p rows = none) (hle : (rows.filter p).length ≤ 1) :
    rows.filter p = [] := by
  cases hf : rows.filter p with
  | nil => rfl
  | cons a t =>
    cases t with
    | nil => unfold singleRow at h; rw [hf] at h; cases h
    | cons b t' => rw [hf] at hle; simp at hle

theorem upsertAlias_of_not_present {db : DB} {merchantId : ℕ} {userId rawName : String}
    (h : db.aliases.any (aliasMatches userId rawName) = false) :
    upsertAlias db merchantId userId rawName =
      { db with aliases := db.aliases ++ [⟨merchantId, rawName, userId⟩] } := by
  unfold upsertAlias
  simp [h]

/-- A resolution for a never-stored raw name: whatever merchant branch runs,
the returned state appends exactly one alias row carrying the returned
merchant id, and grows the merchant table by at most one row. -/
theorem findOrCreateMerchant_fresh {normalize : String → String} {db : DB}
    {userId rawName : String}
    (hnone : singleRow (aliasMatches userId rawName) db.aliases = none)
    (hany : db.aliases.any (aliasMatches userId rawName) = false) :
    ∃ mid merchants2 nextId2,
      findOrCreateMerchant normalize db userId rawName =
        (mid, ⟨merchants2, db.aliases ++ [⟨mid, rawName, userId⟩], nextId2⟩) ∧
      merchants2.length ≤ db.merchants.length + 1 := by
  unfold findOrCreateMerchant
  dsimp only
  rw [hnone]
  cases hm : singleRow
      (fun m => m.user_id == userId && m.name == normalize rawName) db.merchants with
  | some em =>
    dsimp only
    refine ⟨em.id, db.merchants.map (fun m =>
      if m.id = em.id then { m with raw_names := appendUnique m.raw_names rawName } else m),
      db.nextId, ?_, by simp⟩
    rw [upsertAlias_of_not_present (by simpa using hany)]
  | none =>
    dsimp only
    cases hf : (db.merchants.filter (fun m => m.user_id == userId)).find?
        (fun m => decide ((0.8 : ℚ) < calculateSimilarity (normalize rawName) m.name)) with
    | some sim =>
      dsimp only
      refine ⟨sim.id, db.merchants, db.nextId, ?_, by simp⟩
      rw [upsertAlias_of_not_present hany]
    | none =>
      dsimp only
      refine ⟨db.nextId, db.merchants ++ [⟨db.nextId, userId, normalize rawName, [rawName]⟩],
        db.nextId + 1, ?_, by simp⟩
      rw [upsertAlias_of_not_present (by simpa using hany)]

set_option maxRecDepth 20000 in
/-- C7: the amount strings `($12.34)`, `-12.34` and `12.34` in CSV data rows
all produce a stored charge amount of exactly 12.34 (parentheses and a
leading minus read as negative, then the absolute value is taken). -/
theorem C7_parsed_amounts :
    (parseCSV ("Date,Description,Amount\n01/15/2024,A,($12.34)\n" ++
        "01/16/2024,B,-12.34\n01/17/2024,C,12.34")).transactions.map
      (fun t => t.amount) = [12.34, 12.34, 12.34] ∧
    parseAmount "($12.34)".data = some (-12.34) ∧
    parseAmount "-12.34".data = some (-12.34) ∧
    parseAmount "12.34".data = some 12.34 := by
  with_unfolding_all decide

/-- C8 (as stated) is false: `detectDelimiter` picks tab on the strength of
the aggregate tab count, with no per-line requirement — here the second
sampled line contains no tab at all, yet tab is selected. -/
theorem C8_counterexample :
    detectDelimiter (csvLines "a\t\tb\nc,d".data) = '\t' ∧
    "c,d".data ∈ (csvLines "a\t\tb\nc,d".data).take 5 ∧
    ('\t' ∉ "c,d".data) := by
  decide

/-- C8 (amended): `parseCSV`'s delimiter detection selects tab exactly when,
over the first 5 sampled non-empty lines, the total tab count strictly
exceeds the total comma count and is at least the number of sampled lines;
otherwise comma. -/
theorem C8_detectDelimiter_iff (lines : List (List Char)) :
    detectDelimiter lines = '\t' ↔
      (sampleCommaCount lines < sampleTabCount lines ∧
        (lines.take 5).length ≤ sampleTabCount lines) := by
  unfold detectDelimiter
  split_ifs with h
  · exact ⟨fun _ => h, fun _ => rfl⟩
  · exact ⟨fun he => absurd he (by decide), fun hc => absurd hc h⟩

/-! ## CSV row lemmas -/

/-- A kept data row's amount is the absolute value of a non-zero parsed
amount. -/
theorem parseRow_eq_rowTx {mapping : ColumnMapping} {delimiter : Char} {rowNumber : ℕ}
    {line : List Char} {t : ParsedTransaction}
    (h : parseRow mapping delimiter rowNumber line = .rowTx t) :
    ∃ a, amountOfRow mapping (splitCSVLine line delimiter) = some a ∧ a ≠ 0 ∧
      t.amount = |a| := by
  unfold parseRow at h
  dsimp only at h
  split at h
  · cases h
  next date hdate =>
    split at h
    · cases h
    next hdesc =>
      split at h
      · cases h
      next a hamt =>
        split at h
        · cases h
        next hne =>
          refine ⟨a, hamt, hne, ?_⟩
          cases h
          rfl

/-- Every transaction `parseCSV` emits has a strictly positive amount. -/
theorem parseCSV_amounts_pos (csvContent : String) :
    ∀ t ∈ (parseCSV csvContent).transactions, 0 < t.amount := by
  intro t ht
  unfold parseCSV at ht
  dsimp only at ht
  split at ht
  · simp at ht
  · split at ht
    · simp at ht
    next mapping hmap =>
      dsimp only at ht
      rw [mem_sortByKey] at ht
      obtain ⟨o, ho, hot⟩ := List.mem_filterMap.mp ht
      obtain rfl : o = .rowTx t := by
        cases o with
        | rowError m => cases hot
        | rowSkip => cases hot
        | rowTx t' => rw [Option.some.inj hot]
      obtain ⟨p, hp, hpr⟩ := List.mem_filterMap.mp ho
      split at hpr
      · cases hpr
      · obtain ⟨a, -, hne, habs⟩ := parseRow_eq_rowTx (Option.some.inj hpr)
        rw [habs]
        exact abs_pos.mpr hne

/-- C5: resolving the same raw name twice for the same user is idempotent:
the second call returns the same merchant id and writes nothing, after both
calls exactly one alias row exists for the (user, raw_name) key, and a
never-seen raw name creates at most one merchant. Holds for every
normalization function and every state satisfying the alias-table uniqueness
constraint. -/
theorem C5_resolve_idempotent (normalize : String → String) (db : DB)
    (userId rawName : String) (hwf : aliasCount db userId rawName ≤ 1) :
    (findOrCreateMerchant normalize
        (findOrCreateMerchant normalize db userId rawName).2 userId rawName).1 =
      (findOrCreateMerchant normalize db userId rawName).1 ∧
    (findOrCreateMerchant normalize
        (findOrCreateMerchant normalize db userId rawName).2 userId rawName).2 =
      (findOrCreateMerchant normalize db userId rawName).2 ∧
    aliasCount (findOrCreateMerchant normalize db userId rawName).2 userId rawName = 1 ∧
    (aliasCount db userId rawName = 0 →
      (findOrCreateMerchant normalize db userId rawName).2.merchants.length ≤
        db.merchants.length + 1) := by
  cases hal : singleRow (aliasMatches userId rawName) db.aliases with
  | some al =>
    have hfilter := singleRow_eq_some hal
    have h1 : findOrCreateMerchant normalize db userId rawName = (al.merchant_id, db) := by
      unfold findOrCreateMerchant
      dsimp only
      rw [hal]
    rw [h1]
    dsimp only
    rw [h1]
    refine ⟨rfl, rfl, ?_, fun _ => Nat.le_succ _⟩
    unfold aliasCount
    rw [hfilter]
    rfl
  | none =>
    have hcnt : db.aliases.filter (aliasMatches userId rawName) = [] :=
      singleRow_eq_none_of hal hwf
    have hany : db.aliases.any (aliasMatches userId rawName) = false :=
      List.any_eq_false.mpr (List.filter_eq_nil_iff.mp hcnt)
    obtain ⟨mid, M2, n2, heq, hlen⟩ := findOrCreateMerchant_fresh hal hany
    have hfilter2 : (db.aliases ++ [⟨mid, rawName, userId⟩] : List AliasRow).filter
        (aliasMatches userId rawName) = [⟨mid, rawName, userId⟩] := by
      rw [List.filter_append, hcnt]
      simp [aliasMatches]
    have hsingle2 : singleRow (aliasMatches userId rawName)
        (db.aliases ++ [⟨mid, rawName, userId⟩]) = some ⟨mid, rawName, userId⟩ := by
      unfold singleRow
      rw [hfilter2]
    have h2 : findOrCreateMerchant normalize ⟨M2, db.aliases ++ [⟨mid, rawName, userId⟩], n2⟩
        userId rawName = (mid, ⟨M2, db.aliases ++ [⟨mid, rawName, userId⟩], n2⟩) := by
      unfold findOrCreateMerchant
      dsimp only
      rw [hsingle2]
    rw [heq]
    dsimp only
    rw [h2]
    refine ⟨rfl, rfl, ?_, fun _ => hlen⟩
    unfold aliasCount
    dsimp only
    rw [hfilter2]
    rfl

/-- C5 at a concrete input: resolving "Netflix" twice from an empty state. -/
theorem C5_resolve_idempotent_witness :
    (findOrCreateMerchant (fun s => s)
        (findOrCreateMerchant (fun s => s) ⟨[], [], 0⟩ "u" "Netflix").2 "u" "Netflix").1 =
      (findOrCreateMerchant (fun s => s) ⟨[], [], 0⟩ "u" "Netflix").1 ∧
    (findOrCreateMerchant (fun s => s)
        (findOrCreateMerchant (fun s => s) ⟨[], [], 0⟩ "u" "Netflix").2 "u" "Netflix").2 =
      (findOrCreateMerchant (fun s => s) ⟨[], [], 0⟩ "u" "Netflix").2 ∧
    aliasCount (findOrCreateMerchant (fun s => s) ⟨[], [], 0⟩ "u" "Netflix").2
      "u" "Netflix" = 1 ∧
    (aliasCount ⟨[], [], 0⟩ "u" "Netflix" = 0 →
      (findOrCreateMerchant (fun s => s) ⟨[], [], 0⟩ "u" "Netflix").2.merchants.length ≤
        (⟨[], [], 0⟩ : DB).merchants.length + 1) :=
  C5_resolve_idempotent (fun s => s) ⟨[], [], 0⟩ "u" "Netflix" (by decide)

/-- C10: every transaction in `parseCSV`'s output has a strictly positive
amount; a row that parses (valid date, non-empty description) to an amount
of exactly 0 is silently skipped, never an error and never a transaction;
and every retained amount is the absolute value of the (non-zero) parsed
row amount. -/
theorem C10_positive_amounts :
    (∀ (csvContent : String), ∀ t ∈ (parseCSV csvContent).transactions, 0 < t.amount) ∧
    (∀ (mapping : ColumnMapping) (delimiter : Char) (rowNumber : ℕ)
        (line d : List Char),
      parseDate (((splitCSVLine line delimiter).get? mapping.dateIndex).getD []) = some d →
      (trimChars ((((splitCSVLine line delimiter).get? mapping.descriptionIndex).getD
          []).filter (fun c => !(c == '"' || c == '\'')))).isEmpty = false →
      amountOfRow mapping (splitCSVLine line delimiter) = some 0 →
      parseRow mapping delimiter rowNumber line = .rowSkip) ∧
    (∀ (mapping : ColumnMapping) (delimiter : Char) (rowNumber : ℕ) (line : List Char)
        (t : ParsedTransaction),
      parseRow mapping delimiter rowNumber line = .rowTx t →
      ∃ a, amountOfRow mapping (splitCSVLine line delimiter) = some a ∧ a ≠ 0 ∧
        t.amount = |a|) := by
  refine ⟨parseCSV_amounts_pos, ?_, fun _ _ _ _ _ h => parseRow_eq_rowTx h⟩
  intro mapping delimiter rowNumber line d hdate hdesc hamt
  unfold parseRow
  dsimp only
  rw [hdate]
  dsimp only
  rw [if_neg (show ¬_ = true by rw [hdesc]; exact Bool.false_ne_true)]
  rw [hamt]
  dsimp only
  rw [if_pos rfl]

end ChargeDrift
